import Mathlib

/-!
Verification of the audio-summary pipeline (`trendradar/audio/pipeline.py`).

The Python functions of the pipeline are shallowly embedded as Lean
definitions.  Conventions used throughout:

* Python `float` values are modelled as rationals (`ℚ`).
* Python strings are modelled as `String` / `List Char`; `len` is the
  number of characters, as in Python.
* Python's `json.loads` is modelled by `jsonLoads`, a recursive-descent
  parser covering JSON objects, arrays, strings (common escapes, not
  `\uXXXX`), integers, booleans and `null`.  Fractional and exponent
  number forms are outside the model; the pipeline's JSON traffic uses
  integer ids and scores.
* External effects (LLM calls, the filesystem, network sessions) appear
  as explicit parameters or `Except` valued oracles.
-/

/-! ## Characters and Python-style string helpers -/

/-- The opening curly bracket character. -/
def lbrace : Char := '\x7b'

/-- The closing curly bracket character. -/
def rbrace : Char := '\x7d'

/-- JSON whitespace, as accepted between tokens by `json.loads`. -/
def isJsonWs (c : Char) : Bool :=
  c = ' ' || c = '\t' || c = '\n' || c = '\r'

/-- Drop leading JSON whitespace. -/
def skipWs (l : List Char) : List Char := l.dropWhile isJsonWs

/-- ASCII decimal digit test. -/
def isDigitChar (c : Char) : Bool := '0' ≤ c && c ≤ '9'

/-- Python `str.strip` whitespace class (ASCII part of the model). -/
def isPyWs (c : Char) : Bool :=
  c = ' ' || c = '\t' || c = '\n' || c = '\r' || c.toNat = 0x0b || c.toNat = 0x0c

/-- Characters matched by the `[\x00-\x1f\x7f]` class in
`_sanitize_chinese_text`. -/
def isPyCtrl (c : Char) : Bool := c.toNat ≤ 0x1f || c.toNat = 0x7f

/-- Python `str.strip` on a character list. -/
def pyStripL (l : List Char) : List Char :=
  ((l.dropWhile isPyWs).reverse.dropWhile isPyWs).reverse

/-- Python `str.strip` on a string. -/
def pyStripStr (s : String) : String := String.mk (pyStripL s.data)

/-- One pass of `re.sub(r"\s+", " ", ·)`: collapse each whitespace run to a
single space.  The boolean flag records whether the previous character was
whitespace. -/
def collapseWsAux : List Char → Bool → List Char
  | [], _ => []
  | c :: rest, prevWs =>
    if isPyWs c then
      if prevWs then collapseWsAux rest true
      else ' ' :: collapseWsAux rest true
    else c :: collapseWsAux rest false

/-! ## A model of `json.loads` -/

/-- JSON values as produced by `json.loads` (integer numbers only, see the
file header). -/
inductive Json where
  | null : Json
  | bool (b : Bool) : Json
  | num (n : Int) : Json
  | str (s : String) : Json
  | arr (elems : List Json) : Json
  | obj (members : List (String × Json)) : Json
deriving Repr

/-- Parse a non-empty run of decimal digits into a natural number. -/
def parseDigits (l : List Char) : Option (Nat × List Char) :=
  let ds := l.takeWhile isDigitChar
  if ds.isEmpty then none
  else some (ds.foldl (fun acc c => acc * 10 + (c.toNat - '0'.toNat)) 0,
             l.dropWhile isDigitChar)

/-- Translate a JSON string escape character. `\uXXXX` is outside the model. -/
def escChar (c : Char) : Option Char :=
  if c = '"' then some '"'
  else if c = '\\' then some '\\'
  else if c = '/' then some '/'
  else if c = 'n' then some '\n'
  else if c = 't' then some '\t'
  else if c = 'r' then some '\r'
  else if c = 'b' then some '\x08'
  else if c = 'f' then some '\x0c'
  else none

/-- Parse the body of a JSON string (the opening quote already consumed),
returning the decoded characters and the remaining input. -/
def parseStrChars : List Char → Option (List Char × List Char)
  | [] => none
  | c :: rest =>
    if c = '"' then some ([], rest)
    else if c = '\\' then
      match rest with
      | [] => none
      | e :: rest2 =>
        match escChar e with
        | none => none
        | some ch =>
          match parseStrChars rest2 with
          | none => none
          | some (s, r) => some (ch :: s, r)
    else
      match parseStrChars rest with
      | none => none
      | some (s, r) => some (c :: s, r)

mutual

/-- Parse one JSON value; fuel bounds the recursion depth. -/
def parseVal : Nat → List Char → Option (Json × List Char)
  | 0, _ => none
  | fuel + 1, input =>
    match skipWs input with
    | [] => none
    | c :: rest =>
      if c = '"' then
        match parseStrChars rest with
        | some (s, r) => some (Json.str (String.mk s), r)
        | none => none
      else if c = lbrace then
        match skipWs rest with
        | d :: r2 =>
          if d = rbrace then some (Json.obj [], r2)
          else parseObjMembers fuel rest []
        | [] => none
      else if c = '[' then
        match skipWs rest with
        | d :: r2 =>
          if d = ']' then some (Json.arr [], r2)
          else parseArrElems fuel rest []
        | [] => none
      else if c = '-' then
        match parseDigits rest with
        | some (n, r) => some (Json.num (-(n : Int)), r)
        | none => none
      else if isDigitChar c then
        match parseDigits (c :: rest) with
        | some (n, r) => some (Json.num (n : Int), r)
        | none => none
      else if List.isPrefixOf (['t', 'r', 'u', 'e']) (c :: rest) then
        some (Json.bool true, (c :: rest).drop 4)
      else if List.isPrefixOf (['f', 'a', 'l', 's', 'e']) (c :: rest) then
        some (Json.bool false, (c :: rest).drop 5)
      else if List.isPrefixOf (['n', 'u', 'l', 'l']) (c :: rest) then
        some (Json.null, (c :: rest).drop 4)
      else none

/-- Parse the elements of a non-empty JSON array. -/
def parseArrElems : Nat → List Char → List Json → Option (Json × List Char)
  | 0, _, _ => none
  | fuel + 1, l, acc =>
    match parseVal fuel l with
    | none => none
    | some (v, r) =>
      match skipWs r with
      | [] => none
      | c :: r2 =>
        if c = ',' then parseArrElems fuel r2 (acc ++ [v])
        else if c = ']' then some (Json.arr (acc ++ [v]), r2)
        else none

/-- Parse the members of a non-empty JSON object. -/
def parseObjMembers : Nat → List Char → List (String × Json) →
    Option (Json × List Char)
  | 0, _, _ => none
  | fuel + 1, l, acc =>
    match skipWs l with
    | '"' :: r =>
      match parseStrChars r with
      | none => none
      | some (k, r2) =>
        match skipWs r2 with
        | ':' :: r3 =>
          match parseVal fuel r3 with
          | none => none
          | some (v, r4) =>
            match skipWs r4 with
            | [] => none
            | c :: r5 =>
              if c = ',' then parseObjMembers fuel r5 (acc ++ [(String.mk k, v)])
              else if c = rbrace then
                some (Json.obj (acc ++ [(String.mk k, v)]), r5)
              else none
        | _ => none
    | _ => none

end

/-- Model of `json.loads`: parse exactly one JSON value, allowing trailing
whitespace only. -/
def jsonLoads (l : List Char) : Option Json :=
  match parseVal (2 * l.length + 2) l with
  | some (v, r) => if (skipWs r).isEmpty then some v else none
  | none => none

/-! ## `_safe_json_from_text` -/

/-- Negation of "is the opening brace", the predicate dropped over by the
regex model below. -/
def notLB (c : Char) : Bool := decide (c ≠ lbrace)

/-- Negation of "is the closing brace". -/
def notRB (c : Char) : Bool := decide (c ≠ rbrace)

/-- The span matched by `re.search(r"\{.*\}", text, re.S)`: from the first
opening brace through the last closing brace of the text (greedy `.*` with
`DOTALL`), empty when the regex does not match. -/
def braceSpan (l : List Char) : List Char :=
  let t := l.dropWhile notLB
  (t.reverse.dropWhile notRB).reverse

/-- `_safe_json_from_text` on a character list: extract the greedy
brace-to-brace span and run `json.loads` on it. -/
def safeJsonL (l : List Char) : Option Json :=
  let m := braceSpan l
  if m.isEmpty then none else jsonLoads m

/-- `_safe_json_from_text(text)` from `pipeline.py`. -/
def _safe_json_from_text (s : String) : Option Json := safeJsonL s.data

/-- Depth-counting scan that returns the prefix up to the brace closing the
first opening brace.  Used only by the specification-side extraction below. -/
def takeBalanced : List Char → Nat → Option (List Char)
  | [], _ => none
  | c :: rest, d =>
    if c = lbrace then (takeBalanced rest (d + 1)).map (c :: ·)
    else if c = rbrace then
      if d = 1 then some [c]
      else (takeBalanced rest (d - 1)).map (c :: ·)
    else (takeBalanced rest d).map (c :: ·)

/-- Modelled from the spec: the first balanced brace-delimited substring of
the text, found by a bracket-depth scan starting at the first opening
brace.  This is the extraction the specification describes; the code's
extraction is `braceSpan`. -/
def firstBalanced (l : List Char) : Option (List Char) :=
  match l.dropWhile notLB with
  | [] => none
  | t => takeBalanced t 0

/-- Modelled from the spec: JSON extraction as the specification words it —
parse the first balanced brace-delimited substring of the response text. -/
def safeJsonSpec (s : String) : Option Json :=
  (firstBalanced s.data).bind jsonLoads

/-! ## Python value helpers over `Json` -/

/-- `data.get(key)` on a parsed JSON object.  `json.loads` keeps the last
of duplicate keys, hence `getLast?`. -/
def Json.getKey : Json → String → Option Json
  | Json.obj kvs, k => ((kvs.filter (fun p => decide (p.1 = k))).getLast?).map (·.2)
  | _, _ => none

/-- Python truthiness of a decoded JSON value. -/
def Json.pyTruthy : Json → Bool
  | Json.null => false
  | Json.bool b => b
  | Json.num n => decide (n ≠ 0)
  | Json.str s => !s.isEmpty
  | Json.arr xs => !xs.isEmpty
  | Json.obj kvs => !kvs.isEmpty

/-- Digits of a decimal integer literal. -/
def digitsToNat (ds : List Char) : Option Nat :=
  if ds.isEmpty then none
  else if ds.all isDigitChar then
    some (ds.foldl (fun acc c => acc * 10 + (c.toNat - '0'.toNat)) 0)
  else none

/-- Python `int(s)` on a string: strip whitespace, optional sign, digits;
any other shape raises, modelled as `none`. -/
def pyIntOfString (s : String) : Option Int :=
  match pyStripL s.data with
  | '-' :: ds => (digitsToNat ds).map (fun n => -(n : Int))
  | '+' :: ds => (digitsToNat ds).map (fun n => (n : Int))
  | ds => (digitsToNat ds).map (fun n => (n : Int))

/-- Python `int(value)` on a decoded JSON value (`TypeError`/`ValueError`
modelled as `none`). -/
def pyIntOfJson : Json → Option Int
  | Json.num n => some n
  | Json.bool b => some (if b then 1 else 0)
  | Json.str s => pyIntOfString s
  | _ => none

/-- Python `str(value)` on a decoded JSON value.  The pipeline only applies
it to truthy rewrite texts, which are JSON strings in practice; the
container cases are outside the model. -/
def pyStrOfJson : Json → String
  | Json.str s => s
  | Json.num n => toString n
  | Json.bool b => if b then "True" else "False"
  | Json.null => "None"
  | Json.arr _ => ""
  | Json.obj _ => ""

/-! ## Segments and `_sanitize_chinese_text` -/

/-- The chapter descriptor attached to a content segment (`chapter` dict).
`Option ChapterMeta` below models `None` versus a non-empty dict. -/
structure ChapterMeta where
  title : String
  sources : List String
deriving DecidableEq, Repr

/-- One unit of spoken script (`segment` dict). -/
structure Segment where
  text : String
  chapter : Option ChapterMeta
deriving DecidableEq, Repr

/-- `_sanitize_chinese_text(text)`: control characters become spaces,
whitespace runs collapse to single spaces, ends stripped. -/
def _sanitize_chinese_text (s : String) : String :=
  let replaced := s.data.map (fun c => if isPyCtrl c then ' ' else c)
  String.mk (pyStripL (collapseWsAux replaced false))

/-- The fixed fallback sentence substituted for empty rewritten text. -/
def fallbackSentence : String := "该条新闻无法翻译，建议查看原文。"

/-! ## `_dedupe_transcript_segments` -/

/-- Lookup in the `rewrite_map` dict; assignment order makes the last
binding for a key win. -/
def lookupLast (m : List (Int × String)) (k : Int) : Option String :=
  ((m.filter (fun p => decide (p.1 = k))).getLast?).map (·.2)

/-- Lines 413-428 of `pipeline.py`: extract the raw `keep_ids` list and the
rewrite map from the parsed dedupe response.  The raw ids are kept
unconverted, as in the Python (conversion happens when building
`keep_set`). -/
def extractKeepIds (d : Json) : List Json × List (Int × String) :=
  match d.getKey "keep_ids" with
  | some (Json.arr xs) => (xs, [])
  | _ =>
    match d.getKey "items" with
    | some (Json.arr xs) =>
      xs.foldl
        (fun acc it =>
          match it with
          | Json.obj _ =>
            let idj := (it.getKey "id").getD Json.null
            let ids := acc.1 ++ [idj]
            let rw :=
              match it.getKey "text" with
              | some tv =>
                if tv.pyTruthy then
                  match pyIntOfJson idj with
                  | some k => acc.2 ++ [(k, pyStrOfJson tv)]
                  | none => acc.2
                else acc.2
              | none => acc.2
            (ids, rw)
          | _ => acc)
        ([], [])
    | _ => ([], [])

/-- Lines 447-457 of `pipeline.py`: the per-segment update applied to a
kept segment. -/
def applyRewrite (rw : List (Int × String)) (idx : Nat) (seg : Segment) :
    Segment :=
  let base :=
    match lookupLast rw (idx : Int) with
    | some s => s
    | none => seg.text
  let t := _sanitize_chinese_text base
  { seg with text := if t = "" then fallbackSentence else t }

/-- Lines 443-464 of `pipeline.py`: filter the segments to the kept
indices, rewriting and sanitising text, and revert to the originals when
the filtered list is empty. -/
def dedupeApplyKeep (segments : List Segment) (keepSet : List Int)
    (rw : List (Int × String)) : List Segment :=
  let filtered := segments.enum.filterMap
    (fun p => if (p.1 : Int) ∈ keepSet then some (applyRewrite rw p.1 p.2) else none)
  if filtered.isEmpty then segments else filtered

/-- The number of segments whose stripped text is non-empty (the length of
the `items` request list built on lines 360-365). -/
def strippedCount (segments : List Segment) : Nat :=
  (segments.filter (fun s => !(pyStripStr s.text).isEmpty)).length

/-- `_dedupe_transcript_segments(segments, audio_cfg, api_key)`.
`dedupEnabled` is `audio_cfg["DEDUP_ENABLED"]`; `response` is the LLM
response text, `none` standing for an API exception (or an unavailable
client library). -/
def _dedupe_transcript_segments (dedupEnabled : Bool)
    (segments : List Segment) (response : Option String) : List Segment :=
  if !dedupEnabled then segments
  else if segments.length < 3 then segments
  else if strippedCount segments < 3 then segments
  else
    match response with
    | none => segments
    | some text =>
      match _safe_json_from_text (pyStripStr text) with
      | none => segments
      | some data =>
        if !data.pyTruthy then segments
        else
          let extracted := extractKeepIds data
          if extracted.1.isEmpty then segments
          else
            let keepSet := extracted.1.filterMap pyIntOfJson
            if keepSet.isEmpty then segments
            else dedupeApplyKeep segments keepSet extracted.2

/-! ## `_build_script_segments` -/

/-- One cluster summary as handed to the script builder.  `sample_title`
is `Option` valued because the Python reads it with
`item.get("sample_title", "事件更新")`, whose default fires only when the
key is absent; the other fields default to the empty value. -/
structure Summary where
  title : String
  summary : String
  short_summary : String
  priority_score : ℚ
  sources : List String
  sample_title : Option String
deriving DecidableEq, Repr

/-- Stable insertion for the descending sort: a summary is placed before
the first element whose score it meets or exceeds, so earlier input wins
ties. -/
def insertByScoreDesc (x : Summary) : List Summary → List Summary
  | [] => [x]
  | y :: ys =>
    if y.priority_score ≤ x.priority_score then x :: y :: ys
    else y :: insertByScoreDesc x ys

/-- Model of `sorted(summaries, key=lambda s: s.get("priority_score", 0),
reverse=True)`: a stable sort by descending priority score. -/
def sortByScoreDesc : List Summary → List Summary
  | [] => []
  | x :: xs => insertByScoreDesc x (sortByScoreDesc xs)

/-- `max(1, math.ceil(len(summaries_sorted) * 0.3))`. -/
def highCountOf (n : Nat) : Nat := max 1 (Int.toNat ⌈(n : ℚ) * 3 / 10⌉)

/-- Lines 569-571: the text chosen for one summary, with the
`summary or short_summary or title` fallback chain. -/
def scriptTextOf (isHigh : Bool) (item : Summary) : String :=
  let st := if isHigh then item.summary else item.short_summary
  if st ≠ "" then st
  else if item.summary ≠ "" then item.summary
  else if item.short_summary ≠ "" then item.short_summary
  else item.title

/-- Line 579: `item.get("title", "") or item.get("sample_title", "事件更新")`. -/
def chapterTitleOf (item : Summary) : String :=
  if item.title ≠ "" then item.title
  else
    match item.sample_title with
    | some s => s
    | none => "事件更新"

/-- The fixed intro line. -/
def introText : String := "欢迎来到今日的热点简报。"

/-- The fixed outro line. -/
def outroText : String := "以上是今天的热点简报，本播报来源于公开信息，内容可能需要核实。"

/-- The loop body of lines 567-582: the optional content segment built
from the summary at sorted position `p.1`. -/
def scriptSegOf (hc : Nat) (p : Nat × Summary) : Option Segment :=
  let t := scriptTextOf (decide (p.1 < hc)) p.2
  if t = "" then none
  else some ⟨t, some ⟨chapterTitleOf p.2, p.2.sources⟩⟩

/-- `_build_script_segments(summaries, config)` (the `config` argument is
unused by the Python body). -/
def _build_script_segments (summaries : List Summary) : List Segment :=
  if summaries.isEmpty then []
  else
    let ss := sortByScoreDesc summaries
    ⟨introText, none⟩ ::
      (ss.enum.filterMap (scriptSegOf (highCountOf ss.length)) ++
        [⟨outroText, none⟩])

/-! ## `_estimate_durations` -/

/-- `_estimate_durations(segments)`: `max(2.0, len(text) / 6.0)` seconds
per segment. -/
def _estimate_durations (segments : List Segment) : List ℚ :=
  segments.map (fun s => max 2 ((s.text.length : ℚ) / 6))

/-- Lines 151-152 of `maybe_generate_audio`: fall back to the estimates
when the synthesis backend reported no durations. -/
def resolveDurations (durations : List ℚ) (segments : List Segment) : List ℚ :=
  if durations.isEmpty then _estimate_durations segments else durations

/-! ## `_build_chapters` -/

/-- Python `round(x, 2)` modelled over the rationals: round `100 x` to the
nearest integer and divide back.  Exact half-cent ties, which Python
resolves half-to-even on binary floats, are outside the model. -/
def round2 (x : ℚ) : ℚ := ((round (x * 100) : ℤ) : ℚ) / 100

/-- One derived chapter entry. -/
structure Chapter where
  title : String
  start : ℚ
  sources : List String
deriving DecidableEq, Repr

/-- The loop of `_build_chapters`, with the running time cursor explicit. -/
def buildChaptersAux : List (Segment × ℚ) → ℚ → List Chapter
  | [], _ => []
  | (seg, dur) :: rest, current =>
    match seg.chapter with
    | some ch => ⟨ch.title, round2 current, ch.sources⟩ :: buildChaptersAux rest (current + dur)
    | none => buildChaptersAux rest (current + dur)

/-- `_build_chapters(segments, durations)`. -/
def _build_chapters (segments : List Segment) (durations : List ℚ) :
    List Chapter :=
  buildChaptersAux (segments.zip durations) 0

/-! ## `_cluster_by_fuzzy` -/

/-- One flattened report item, as built by `_flatten_report_items`. -/
structure NewsItem where
  title : String
  url : String
  source : String
  ranks : List Int
  count : Int
  time_display : String
  keyword : String
  content : String
deriving DecidableEq, Repr

/-- One fuzzy cluster: its member items and the stored normalized
representative title (`_norm`). -/
structure FuzzyCluster where
  items : List NewsItem
  norm : String
deriving DecidableEq, Repr

/-- The inner loop of `_cluster_by_fuzzy`: append the item to the first
cluster whose representative matches with ratio at least the threshold,
otherwise append a fresh cluster at the end. -/
def addToMatching (ratio : String → String → ℚ) (threshold : ℚ) (n : String)
    (item : NewsItem) : List FuzzyCluster → List FuzzyCluster
  | [] => [⟨[item], n⟩]
  | c :: cs =>
    if threshold ≤ ratio n c.norm then ⟨c.items ++ [item], c.norm⟩ :: cs
    else c :: addToMatching ratio threshold n item cs

/-- One iteration of the `for item in items` loop of `_cluster_by_fuzzy`. -/
def fuzzyStep (ratio : String → String → ℚ) (threshold : ℚ)
    (normalize : String → String) (clusters : List FuzzyCluster)
    (item : NewsItem) : List FuzzyCluster :=
  addToMatching ratio threshold (normalize item.title) item clusters

/-- `_cluster_by_fuzzy(items, fuzz, threshold)`.  `ratio` embeds
`fuzz.ratio` (an external library) and `normalize` embeds
`_normalize_title`, whose `clean_title` dependency lives outside the
pipeline module. -/
def _cluster_by_fuzzy (items : List NewsItem) (ratio : String → String → ℚ)
    (threshold : ℚ) (normalize : String → String) : List FuzzyCluster :=
  items.foldl (fuzzyStep ratio threshold normalize) []

/-! ## `_should_generate_audio` -/

/-- `_should_generate_audio(audio_path, interval_hours)`.  The filesystem
is abstracted into `pathExists` (the `audio_path.exists()` probe) and
`mtime`; `now` is `time.time()`. -/
def _should_generate_audio (pathExists : Bool) (mtime now : ℚ)
    (interval_hours : Int) : Bool :=
  if interval_hours ≤ 0 then true
  else if !pathExists then true
  else decide ((interval_hours : ℚ) * 3600 ≤ now - mtime)

/-! ## `maybe_generate_audio` -/

/-- Python `str.lower` on one character (ASCII part of the model). -/
def pyLowerChar (c : Char) : Char :=
  if 'A' ≤ c ∧ c ≤ 'Z' then Char.ofNat (c.toNat + 32) else c

/-- Python `str.lower` on a string. -/
def pyLowerStr (s : String) : String := String.mk (s.data.map pyLowerChar)

/-- The terminal artifact descriptor. -/
structure AudioResult where
  audio_path : Option String
  chapters_path : Option String
  generated : Bool
deriving DecidableEq, Repr

/-- `maybe_generate_audio(report_data, config)` as an exception-explicit
state machine.  Python control flow is modelled with `Except ε`: a
`.error` value is an uncaught `Exception`.  The oracles are, in program
order: the two `mkdir` calls (lines 65-66), the cache check of lines 75-89
(`.ok true` means "interval not reached, reuse the cached artifact"; its
`stat` call can raise), the `_flatten_report_items` call (line 104,
`.ok true` meaning a non-empty item list), and the whole `try` body of
lines 114-160 (returning `.ok (some r)`, `.ok none` for an early `return
None`, or `.error` for any raised `Exception`).  The result is the return
value paired with two booleans: whether the `requests.Session` was opened
and whether it was closed.  The `except Exception` / `finally` pair of
lines 161-165 is the only handler; `print` and `session.close()` are
modelled as non-raising. -/
def maybe_generate_audio (ε : Type) (enabled : Bool)
    (mkdirOutput mkdirPublic : Except ε Unit)
    (cacheCheck : Except ε Bool)
    (publicAudioPath publicChaptersPath : String)
    (geminiKey provider ttsEndpoint : String)
    (flattenNonEmpty : Except ε Bool)
    (body : Except ε (Option AudioResult)) :
    Except ε (Option AudioResult) × Bool × Bool :=
  if !enabled then (Except.ok none, false, false)
  else
    match mkdirOutput with
    | Except.error e => (Except.error e, false, false)
    | Except.ok _ =>
      match mkdirPublic with
      | Except.error e => (Except.error e, false, false)
      | Except.ok _ =>
        match cacheCheck with
        | Except.error e => (Except.error e, false, false)
        | Except.ok true =>
          (Except.ok (some ⟨some publicAudioPath, some publicChaptersPath, false⟩),
           false, false)
        | Except.ok false =>
          let use_local_tts :=
            pyLowerStr (pyStripStr provider) ∈
              ["sherpa_onnx", "sherpa", "kokoro", "voxcpm_onnx"]
          if pyStripStr geminiKey = "" then (Except.ok none, false, false)
          else if !use_local_tts && pyStripStr ttsEndpoint = "" then
            (Except.ok none, false, false)
          else
            match flattenNonEmpty with
            | Except.error e => (Except.error e, false, false)
            | Except.ok false => (Except.ok none, false, false)
            | Except.ok true =>
              match body with
              | Except.ok r => (Except.ok r, true, true)
              | Except.error _ => (Except.ok none, true, true)

/-! ## Theorems -/

/-! ### C1: the JSON extraction -/

/-- A response text containing two JSON objects. -/
def greedyCounterText : String := "\x7b\"a\":1\x7d \x7b\"b\":2\x7d"

/-- C1 counterexample: the extraction does not parse the first balanced
brace-delimited substring.  On a response holding two JSON objects the
spec-described extraction returns the first object, while
`_safe_json_from_text` matches greedily from the first opening brace to
the last closing brace and fails to parse, yielding `none`. -/
theorem safe_json_not_first_balanced :
    safeJsonSpec greedyCounterText = some (Json.obj [("a", Json.num 1)]) ∧
    _safe_json_from_text greedyCounterText = none := by
  exact ⟨rfl, rfl⟩

theorem dropWhile_eq_nil_of_all {p : Char → Bool} {l : List Char}
    (h : ∀ x ∈ l, p x = true) : List.dropWhile p l = [] :=
  List.dropWhile_eq_nil_iff.mpr h

/-- The greedy span of `pre ++ obj ++ post` is exactly `obj` when `pre`
holds no opening brace, `post` no closing brace, and `obj` is
brace-delimited. -/
theorem braceSpan_append (a mid b : List Char)
    (ha : lbrace ∉ a) (hb : rbrace ∉ b) :
    braceSpan (a ++ ((lbrace :: (mid ++ [rbrace])) ++ b)) =
      lbrace :: (mid ++ [rbrace]) := by
  unfold braceSpan
  have hA : List.dropWhile notLB a = [] := by
    apply dropWhile_eq_nil_of_all
    intro c hc
    simp only [notLB, decide_eq_true_eq]
    exact fun h => ha (h ▸ hc)
  have h1 : List.dropWhile notLB (a ++ ((lbrace :: (mid ++ [rbrace])) ++ b)) =
      (lbrace :: (mid ++ [rbrace])) ++ b := by
    rw [List.dropWhile_append, hA]
    simp [List.dropWhile_cons, notLB]
  rw [h1]
  show (List.dropWhile notRB ((lbrace :: (mid ++ [rbrace])) ++ b).reverse).reverse =
    lbrace :: (mid ++ [rbrace])
  have hB : List.dropWhile notRB b.reverse = [] := by
    apply dropWhile_eq_nil_of_all
    intro c hc
    simp only [notRB, decide_eq_true_eq]
    intro h
    exact hb (h ▸ (List.mem_reverse.mp hc))
  have h2 : ((lbrace :: (mid ++ [rbrace])) ++ b).reverse =
      b.reverse ++ ((rbrace :: mid.reverse) ++ [lbrace]) := by
    simp [List.reverse_append, List.reverse_cons]
  rw [h2, List.dropWhile_append, hB]
  simp [List.dropWhile_cons, notRB, List.reverse_cons]

/-- C1 (amended): `_safe_json_from_text` parses the span running from the
first opening brace to the last closing brace of the response text; in
particular, when the response consists of a single JSON object whose
braces are the only braces of the text, that object is returned. -/
theorem safe_json_single_object (a mid b : List Char) (v : Json)
    (ha : lbrace ∉ a) (hb : rbrace ∉ b)
    (hv : jsonLoads (lbrace :: (mid ++ [rbrace])) = some v) :
    _safe_json_from_text (String.mk (a ++ ((lbrace :: (mid ++ [rbrace])) ++ b))) =
      some v := by
  unfold _safe_json_from_text safeJsonL
  have : (String.mk (a ++ ((lbrace :: (mid ++ [rbrace])) ++ b))).data =
      a ++ ((lbrace :: (mid ++ [rbrace])) ++ b) := rfl
  rw [this, braceSpan_append a mid b ha hb]
  simp [hv]

/-- C1 witness: the amended statement at a concrete response text. -/
theorem safe_json_single_object_witness :
    _safe_json_from_text (String.mk
      (['x', ' '] ++ ((lbrace :: (("\"a\":1".data) ++ [rbrace])) ++ [' ', 'y']))) =
      some (Json.obj [("a", Json.num 1)]) := by
  exact safe_json_single_object ['x', ' '] ("\"a\":1".data) [' ', 'y']
    (Json.obj [("a", Json.num 1)]) (by decide) (by decide) (by rfl)

/-! ### C2: deduplication is fail-open -/

/-- C2: whenever the dedupe LLM call raises, or its response text yields no
parseable JSON object, or the parsed object provides no non-empty set of
integer keep-ids, `_dedupe_transcript_segments` returns the original
segments unchanged. -/
theorem dedupe_fail_open (enabled : Bool) (segments : List Segment)
    (resp : Option String)
    (h : resp = none ∨ ∃ t, resp = some t ∧
      (_safe_json_from_text (pyStripStr t) = none ∨
       ∃ d, _safe_json_from_text (pyStripStr t) = some d ∧
         (extractKeepIds d).1.filterMap pyIntOfJson = [])) :
    _dedupe_transcript_segments enabled segments resp = segments := by
  rcases h with h | ⟨t, ht, hcase⟩
  · subst h
    unfold _dedupe_transcript_segments
    split_ifs <;> rfl
  · subst ht
    unfold _dedupe_transcript_segments
    split_ifs <;> try rfl
    show (match _safe_json_from_text (pyStripStr t) with
      | none => segments
      | some data =>
        if !data.pyTruthy then segments
        else
          let extracted := extractKeepIds data
          if extracted.1.isEmpty then segments
          else
            let keepSet := extracted.1.filterMap pyIntOfJson
            if keepSet.isEmpty then segments
            else dedupeApplyKeep segments keepSet extracted.2) = segments
    rcases hcase with hnone | ⟨d, hd, hkeep⟩
    · rw [hnone]
    · rw [hd]
      show (if !d.pyTruthy then segments
        else
          let extracted := extractKeepIds d
          if extracted.1.isEmpty then segments
          else
            let keepSet := extracted.1.filterMap pyIntOfJson
            if keepSet.isEmpty then segments
            else dedupeApplyKeep segments keepSet extracted.2) = segments
      cases hT : d.pyTruthy
      · simp [hT]
      · simp only [hT, Bool.not_true, if_neg (by simp : ¬((false : Bool) = true))]
        show (if (extractKeepIds d).1.isEmpty then segments
          else if ((extractKeepIds d).1.filterMap pyIntOfJson).isEmpty then segments
          else dedupeApplyKeep segments ((extractKeepIds d).1.filterMap pyIntOfJson)
            (extractKeepIds d).2) = segments
        split_ifs with h2 h3 <;> try rfl
        exact absurd (by simp [hkeep] :
          ((extractKeepIds d).1.filterMap pyIntOfJson).isEmpty = true) h3

/-- C2 witness: three non-empty segments and a response with no JSON
object in it. -/
theorem dedupe_fail_open_witness :
    _dedupe_transcript_segments true [⟨"aa", none⟩, ⟨"bb", none⟩, ⟨"cc", none⟩]
      (some ("no json here")) = [⟨"aa", none⟩, ⟨"bb", none⟩, ⟨"cc", none⟩] := by
  exact dedupe_fail_open true _ _
    (Or.inr ⟨"no json here", rfl, Or.inl (by rfl)⟩)

/-! ### C8: the dedupe success path -/

theorem enumFrom_filterMap {α β : Type} (l : List α) :
    ∀ (n : Nat) (F : Nat → α → Option β),
    (List.enumFrom n l).filterMap (fun p => F p.1 p.2) =
    (List.range l.length).filterMap (fun i => (l.get? i).bind (fun a => F (n + i) a)) := by
  induction l with
  | nil => intro n F; rfl
  | cons a l ih =>
    intro n F
    show List.filterMap (fun p => F p.1 p.2) ((n, a) :: List.enumFrom (n + 1) l) = _
    rw [List.filterMap_cons, List.length_cons, List.range_succ_eq_map,
      List.filterMap_cons, List.filterMap_map]
    have hz : ((a :: l).get? 0).bind (fun x => F (n + 0) x) = F n a := by
      simp
    rw [hz]
    have ht : List.filterMap
        ((fun i => ((a :: l).get? i).bind (fun x => F (n + i) x)) ∘ Nat.succ)
        (List.range l.length) =
        List.filterMap (fun i => (l.get? i).bind (fun x => F (n + 1 + i) x))
        (List.range l.length) := by
      apply List.filterMap_congr
      intro i _
      show ((a :: l).get? (i + 1)).bind (fun x => F (n + (i + 1)) x) = _
      rw [List.get?_cons_succ]
      have : n + (i + 1) = n + 1 + i := by omega
      rw [this]
    rw [ht, ih (n + 1) F]

theorem enum_filterMap {α β : Type} (l : List α) (F : Nat → α → Option β) :
    l.enum.filterMap (fun p => F p.1 p.2) =
    (List.range l.length).filterMap (fun i => (l.get? i).bind (fun a => F i a)) := by
  have := enumFrom_filterMap l 0 F
  simpa using this

/-- The text produced for a kept segment is never empty: either the
sanitised text is non-empty, or the fixed fallback sentence is used. -/
theorem applyRewrite_text_ne (rwm : List (Int × String)) (idx : Nat)
    (seg : Segment) : (applyRewrite rwm idx seg).text ≠ "" := by
  unfold applyRewrite
  dsimp only
  split_ifs with h
  · intro hc
    exact absurd (congrArg String.data hc) (by decide)
  · exact h

/-- C8: on the dedupe success path the result is the subsequence of the
original segments at the kept indices in original order, each kept
segment's text rewritten/sanitised with the empty-text fallback applied;
an empty filtered result reverts to the original segments, so the output
of a non-empty input is non-empty and never longer than the input, and on
the non-revert path every output text is non-empty. -/
theorem dedupe_keep_filter_props (segments : List Segment) (ks : List Int)
    (rwm : List (Int × String)) :
    (dedupeApplyKeep segments ks rwm =
      (let filtered := (((List.range segments.length).filter
          (fun (i : Nat) => decide ((i : Int) ∈ ks))).filterMap
          (fun (i : Nat) => (segments.get? i).map (fun s => applyRewrite rwm i s)));
        if filtered.isEmpty then segments else filtered))
    ∧ (dedupeApplyKeep segments ks rwm).length ≤ segments.length
    ∧ (segments ≠ [] → dedupeApplyKeep segments ks rwm ≠ [])
    ∧ ((∀ s ∈ dedupeApplyKeep segments ks rwm, s.text ≠ "") ∨
        dedupeApplyKeep segments ks rwm = segments) := by
  have hfe : segments.enum.filterMap
      (fun p => if ((p.1 : Int) ∈ ks) then some (applyRewrite rwm p.1 p.2) else none) =
      ((List.range segments.length).filter
        (fun (i : Nat) => decide ((i : Int) ∈ ks))).filterMap
        (fun (i : Nat) => (segments.get? i).map (fun s => applyRewrite rwm i s)) := by
    rw [List.filterMap_filter]
    rw [enum_filterMap segments
      (fun i a => if ((i : Int) ∈ ks) then some (applyRewrite rwm i a) else none)]
    apply List.filterMap_congr
    intro i _
    by_cases hm : ((i : Int) ∈ ks)
    · simp only [hm, if_true, decide_eq_true_eq, if_pos]
      cases segments.get? i <;> rfl
    · simp [hm]
  have hdef : dedupeApplyKeep segments ks rwm =
      (let filtered := (((List.range segments.length).filter
          (fun (i : Nat) => decide ((i : Int) ∈ ks))).filterMap
          (fun (i : Nat) => (segments.get? i).map (fun s => applyRewrite rwm i s)));
        if filtered.isEmpty then segments else filtered) := by
    unfold dedupeApplyKeep
    rw [hfe]
  refine ⟨hdef, ?_, ?_, ?_⟩
  · simp only [dedupeApplyKeep]
    split_ifs with h
    · exact le_refl _
    · calc (segments.enum.filterMap _).length
          ≤ segments.enum.length := List.length_filterMap_le _ _
        _ = segments.length := List.enum_length
  · intro hne
    simp only [dedupeApplyKeep]
    split_ifs with h
    · exact hne
    · intro hc
      exact h (by rw [hc]; rfl)
  · simp only [dedupeApplyKeep]
    split_ifs with h
    · exact Or.inr rfl
    · left
      intro s hs
      rcases List.mem_filterMap.mp hs with ⟨p, _, hp⟩
      by_cases hm : ((p.1 : Int) ∈ ks)
      · rw [if_pos hm] at hp
        injection hp with hp
        rw [← hp]
        exact applyRewrite_text_ne rwm p.1 p.2
      · rw [if_neg hm] at hp
        exact absurd hp (by simp)

/-- C8 witness: keep indices 0 and 2 of three segments. -/
theorem dedupe_keep_filter_props_witness :
    dedupeApplyKeep [⟨"aa", none⟩, ⟨"bb", none⟩, ⟨"cc", none⟩] [0, 2] [] =
      [⟨"aa", none⟩, ⟨"cc", none⟩] ∧
    ([⟨"aa", none⟩, ⟨"bb", none⟩, ⟨"cc", none⟩] : List Segment) ≠ [] ∧
    dedupeApplyKeep [⟨"aa", none⟩, ⟨"bb", none⟩, ⟨"cc", none⟩] [0, 2] [] ≠ [] := by
  have h := dedupe_keep_filter_props [⟨"aa", none⟩, ⟨"bb", none⟩, ⟨"cc", none⟩] [0, 2] []
  refine ⟨by decide, by decide, h.2.2.1 (by decide)⟩

/-! ### C4: estimated durations -/

/-- C4: when the backend reports no durations, each segment's duration is
estimated as `max(2.0, len(text) / 6.0)`; the estimate list has one entry
per segment and every entry is at least 2 seconds. -/
theorem estimate_durations_formula (segments : List Segment) :
    resolveDurations [] segments =
      segments.map (fun s => max 2 ((s.text.length : ℚ) / 6))
    ∧ (resolveDurations [] segments).length = segments.length
    ∧ ∀ d ∈ resolveDurations [] segments, 2 ≤ d := by
  refine ⟨rfl, by simp [resolveDurations, _estimate_durations], ?_⟩
  intro d hd
  have : d ∈ segments.map (fun s => max 2 ((s.text.length : ℚ) / 6)) := hd
  rcases List.mem_map.mp this with ⟨s, _, hs⟩
  rw [← hs]
  exact le_max_left _ _

/-- C4 witness: a short segment is estimated at the 2-second floor. -/
theorem estimate_durations_formula_witness :
    resolveDurations [] [⟨"abcd", none⟩] = [2] ∧ (2 : ℚ) ≤ 2 := by
  have heq : resolveDurations [] [⟨"abcd", none⟩] = [2] := by
    show _estimate_durations [⟨"abcd", none⟩] = [2]
    unfold _estimate_durations
    have h4 : ((("abcd" : String).length : ℕ) : ℚ) = 4 := by
      norm_num [show ("abcd" : String).length = 4 from rfl]
    simp only [List.map_cons, List.map_nil, h4]
    rw [max_eq_left (by norm_num)]
  refine ⟨heq, (estimate_durations_formula [⟨"abcd", none⟩]).2.2 2 ?_⟩
  rw [heq]
  exact List.mem_singleton.mpr rfl

/-! ### C10: the cache-interval check -/

/-- C10: `_should_generate_audio` returns `true` whenever the configured
interval is non-positive or the audio file is absent; it returns `false`
exactly when the interval is positive, the file exists, and its age is
strictly below `interval_hours * 3600` seconds. -/
theorem should_generate_audio_spec (pathExists : Bool) (mtime now : ℚ)
    (interval_hours : Int) :
    ((interval_hours ≤ 0 ∨ pathExists = false) →
      _should_generate_audio pathExists mtime now interval_hours = true)
    ∧ (_should_generate_audio pathExists mtime now interval_hours = false ↔
        (0 < interval_hours ∧ pathExists = true ∧
         now - mtime < (interval_hours : ℚ) * 3600)) := by
  unfold _should_generate_audio
  constructor
  · rintro (h | h) <;> split_ifs <;> simp_all
  · split_ifs with h1 h2
    · constructor
      · intro hc; exact absurd hc (by simp)
      · intro hc; omega
    · constructor
      · intro hc; exact absurd hc (by simp)
      · intro hc
        rcases hc with ⟨_, hp, _⟩
        simp [hp] at h2
    · rw [decide_eq_false_iff_not, not_le]
      constructor
      · intro hlt
        refine ⟨by omega, ?_, hlt⟩
        cases pathExists
        · simp at h2
        · rfl
      · intro hc; exact hc.2.2

/-- C10 witness: a non-positive interval forces regeneration; a fresh file
within a positive interval is reused. -/
theorem should_generate_audio_spec_witness :
    _should_generate_audio false 0 0 5 = true ∧
    _should_generate_audio true 0 1000 12 = false := by
  refine ⟨(should_generate_audio_spec false 0 0 5).1 (Or.inr rfl), ?_⟩
  exact (should_generate_audio_spec true 0 1000 12).2.mpr
    ⟨by norm_num, rfl, by norm_num⟩

/-! ### C5 and C6: the script builder -/

theorem insertByScoreDesc_perm (x : Summary) (l : List Summary) :
    (insertByScoreDesc x l).Perm (x :: l) := by
  induction l with
  | nil => exact List.Perm.refl _
  | cons y ys ih =>
    unfold insertByScoreDesc
    split_ifs with h
    · exact List.Perm.refl _
    · exact List.Perm.trans (List.Perm.cons y ih) (List.Perm.swap x y ys)

theorem sortByScoreDesc_perm (l : List Summary) : (sortByScoreDesc l).Perm l := by
  induction l with
  | nil => exact List.Perm.refl _
  | cons x xs ih =>
    exact List.Perm.trans (insertByScoreDesc_perm x (sortByScoreDesc xs))
      (List.Perm.cons x ih)

theorem insertByScoreDesc_pairwise (x : Summary) (l : List Summary)
    (h : l.Pairwise (fun a b => b.priority_score ≤ a.priority_score)) :
    (insertByScoreDesc x l).Pairwise
      (fun a b => b.priority_score ≤ a.priority_score) := by
  induction l with
  | nil => simp [insertByScoreDesc]
  | cons y ys ih =>
    rw [List.pairwise_cons] at h
    unfold insertByScoreDesc
    split_ifs with hc
    · rw [List.pairwise_cons]
      refine ⟨?_, List.pairwise_cons.mpr h⟩
      intro z hz
      rcases List.mem_cons.mp hz with rfl | hz
      · exact hc
      · exact le_trans (h.1 z hz) hc
    · rw [List.pairwise_cons]
      refine ⟨?_, ih h.2⟩
      intro z hz
      rcases List.mem_cons.mp ((insertByScoreDesc_perm x ys).mem_iff.mp hz) with
        rfl | hz
      · exact le_of_lt (not_le.mp hc)
      · exact h.1 z hz

theorem sortByScoreDesc_pairwise (l : List Summary) :
    (sortByScoreDesc l).Pairwise
      (fun a b => b.priority_score ≤ a.priority_score) := by
  induction l with
  | nil => simp [sortByScoreDesc]
  | cons x xs ih => exact insertByScoreDesc_pairwise x (sortByScoreDesc xs) ih

theorem insertByScoreDesc_filter_eq (x : Summary) (l : List Summary) (c : ℚ) :
    (insertByScoreDesc x l).filter (fun s => decide (s.priority_score = c)) =
    (x :: l).filter (fun s => decide (s.priority_score = c)) := by
  induction l with
  | nil => rfl
  | cons y ys ih =>
    unfold insertByScoreDesc
    split_ifs with hc
    · rfl
    · by_cases hx : x.priority_score = c
      · have hy : ¬(y.priority_score = c) := by
          intro hy
          exact hc (le_of_eq (hy.trans hx.symm))
        simp [List.filter_cons, hx, hy, ih]
      · simp [List.filter_cons, hx, ih]

theorem sortByScoreDesc_filter_eq (l : List Summary) (c : ℚ) :
    (sortByScoreDesc l).filter (fun s => decide (s.priority_score = c)) =
    l.filter (fun s => decide (s.priority_score = c)) := by
  induction l with
  | nil => rfl
  | cons x xs ih =>
    show (insertByScoreDesc x (sortByScoreDesc xs)).filter _ = _
    rw [insertByScoreDesc_filter_eq, List.filter_cons, List.filter_cons, ih]

/-- C5: for a non-empty summaries list the script is one fixed intro
segment without a chapter, then content segments each carrying a chapter
descriptor made of the story title and its sources, then one fixed outro
segment without a chapter. -/
theorem build_script_intro_outro (summaries : List Summary)
    (h : summaries ≠ []) :
    ∃ body, _build_script_segments summaries =
        ⟨introText, none⟩ :: (body ++ [⟨outroText, none⟩]) ∧
      ∀ s ∈ body, ∃ item ∈ summaries,
        s.chapter = some ⟨chapterTitleOf item, item.sources⟩ := by
  unfold _build_script_segments
  rw [if_neg (by simpa using h)]
  refine ⟨_, rfl, ?_⟩
  intro s hs
  rcases List.mem_filterMap.mp hs with ⟨p, hp, hfp⟩
  have hmem : p.2 ∈ sortByScoreDesc summaries := by
    rcases p with ⟨i, a⟩
    rcases List.mem_enum hp with ⟨hlt, hget⟩
    rw [hget]
    exact List.getElem_mem hlt
  refine ⟨p.2, (sortByScoreDesc_perm summaries).mem_iff.mp hmem, ?_⟩
  unfold scriptSegOf at hfp
  dsimp only at hfp
  by_cases ht : scriptTextOf
      (decide (p.1 < highCountOf (sortByScoreDesc summaries).length)) p.2 = ""
  · rw [if_pos ht] at hfp
    cases hfp
  · rw [if_neg ht] at hfp
    injection hfp with hfp
    rw [← hfp]

/-- C5 witness: a single summary yields intro, one chaptered content
segment, and outro. -/
theorem build_script_intro_outro_witness :
    ∃ body, _build_script_segments [⟨"T", "S", "s", 50, ["src"], none⟩] =
        ⟨introText, none⟩ :: (body ++ [⟨outroText, none⟩]) ∧
      ∀ s ∈ body, ∃ item ∈ [(⟨"T", "S", "s", 50, ["src"], none⟩ : Summary)],
        s.chapter = some ⟨chapterTitleOf item, item.sources⟩ := by
  exact build_script_intro_outro [⟨"T", "S", "s", 50, ["src"], none⟩]
    (by simp)

/-- C6: the script builder sorts summaries by priority score descending
and stably (elements of equal score keep their input order), and on the
two-summary example the high-priority story uses the long summary while
the other uses the short summary, giving exactly intro, "S1"/chapter A,
"s2"/chapter B, outro. -/
theorem build_script_priority_order :
    (∀ l : List Summary, (sortByScoreDesc l).Pairwise
      (fun a b => b.priority_score ≤ a.priority_score))
    ∧ (∀ (l : List Summary) (c : ℚ),
        (sortByScoreDesc l).filter (fun s => decide (s.priority_score = c)) =
        l.filter (fun s => decide (s.priority_score = c)))
    ∧ _build_script_segments
        [⟨"A", "S1", "s1", 90, [], none⟩, ⟨"B", "S2", "s2", 10, [], none⟩] =
      [⟨introText, none⟩, ⟨"S1", some ⟨"A", []⟩⟩, ⟨"s2", some ⟨"B", []⟩⟩,
        ⟨outroText, none⟩] := by
  refine ⟨sortByScoreDesc_pairwise, sortByScoreDesc_filter_eq, ?_⟩
  have hsort : sortByScoreDesc
      [⟨"A", "S1", "s1", 90, [], none⟩, ⟨"B", "S2", "s2", 10, [], none⟩] =
      [⟨"A", "S1", "s1", 90, [], none⟩, ⟨"B", "S2", "s2", 10, [], none⟩] := by
    decide
  have hceil : (⌈((2 : ℕ) : ℚ) * 3 / 10⌉ : ℤ) = 1 := by
    have h35 : ((2 : ℕ) : ℚ) * 3 / 10 = 3 / 5 := by push_cast; ring
    rw [h35, Int.ceil_eq_iff]
    constructor <;> norm_num
  have hhc : highCountOf 2 = 1 := by
    unfold highCountOf
    rw [hceil]
    decide
  unfold _build_script_segments
  rw [if_neg (by simp)]
  show (⟨introText, none⟩ ::
    ((sortByScoreDesc
        [⟨"A", "S1", "s1", 90, [], none⟩, ⟨"B", "S2", "s2", 10, [], none⟩]).enum.filterMap
      (scriptSegOf (highCountOf (sortByScoreDesc
        [⟨"A", "S1", "s1", 90, [], none⟩, ⟨"B", "S2", "s2", 10, [], none⟩]).length)) ++
      [⟨outroText, none⟩]) : List Segment) = _
  rw [hsort]
  show (⟨introText, none⟩ ::
    (([⟨"A", "S1", "s1", 90, [], none⟩,
       ⟨"B", "S2", "s2", 10, [], none⟩] : List Summary).enum.filterMap
      (scriptSegOf (highCountOf 2)) ++ [⟨outroText, none⟩]) : List Segment) = _
  rw [hhc]
  rfl

/-! ### C7: chapter start times -/

theorem round2_mono {x y : ℚ} (h : x ≤ y) : round2 x ≤ round2 y := by
  unfold round2
  have h1 : round (x * 100) ≤ round (y * 100) := by
    rw [round_eq, round_eq]
    exact Int.floor_mono (by linarith)
  have h2 : ((round (x * 100) : ℤ) : ℚ) ≤ ((round (y * 100) : ℤ) : ℚ) := by
    exact_mod_cast h1
  gcongr

theorem buildChaptersAux_eq (segs : List Segment) :
    ∀ (durs : List ℚ) (c : ℚ), segs.length = durs.length →
    buildChaptersAux (segs.zip durs) c =
      (List.range segs.length).filterMap
        (fun i => (segs.get? i).bind (fun seg => seg.chapter.map
          (fun ch => ⟨ch.title, round2 (c + (durs.take i).sum), ch.sources⟩))) := by
  induction segs with
  | nil => intro durs c _; rfl
  | cons seg ss ih =>
    intro durs c h
    cases durs with
    | nil => cases h
    | cons du ds =>
      have hlen : ss.length = ds.length := by simpa using h
      have hstep : buildChaptersAux ((seg :: ss).zip (du :: ds)) c =
          (match seg.chapter with
           | some ch =>
             ⟨ch.title, round2 c, ch.sources⟩ :: buildChaptersAux (ss.zip ds) (c + du)
           | none => buildChaptersAux (ss.zip ds) (c + du)) := rfl
      have htail : List.filterMap
          ((fun i => ((seg :: ss).get? i).bind (fun s => s.chapter.map
            (fun ch => ⟨ch.title, round2 (c + (((du :: ds).take i).sum)), ch.sources⟩)))
            ∘ Nat.succ) (List.range ss.length) =
          buildChaptersAux (ss.zip ds) (c + du) := by
        rw [ih ds (c + du) hlen]
        apply List.filterMap_congr
        intro i _
        show ((seg :: ss).get? (i + 1)).bind _ = (ss.get? i).bind _
        rw [List.get?_cons_succ]
        rcases hg : ss.get? i with _ | s
        · rfl
        · show s.chapter.map _ = s.chapter.map _
          rcases s.chapter with _ | ch
          · rfl
          · show some _ = some _
            have harith : c + ((du :: ds).take (i + 1)).sum =
                c + du + ((ds.take i).sum) := by
              rw [List.take_succ_cons, List.sum_cons]
              ring
            rw [harith]
      rw [hstep, List.length_cons, List.range_succ_eq_map, List.filterMap_cons,
        List.filterMap_map, htail]
      rcases hch : seg.chapter with _ | ch <;>
        simp [hch, List.get?_cons_zero]

theorem buildChaptersAux_mono (l : List (Segment × ℚ)) :
    ∀ c : ℚ, (∀ p ∈ l, 0 ≤ p.2) →
    (∀ ch ∈ buildChaptersAux l c, round2 c ≤ ch.start) ∧
    List.Chain' (fun a b => a.start ≤ b.start) (buildChaptersAux l c) := by
  induction l with
  | nil =>
    intro c _
    refine ⟨?_, List.chain'_nil⟩
    intro ch hch
    cases hch
  | cons p rest ih =>
    intro c hnn
    obtain ⟨seg, du⟩ := p
    have hdu : 0 ≤ du := hnn (seg, du) (List.mem_cons_self _ _)
    have hrest : ∀ q ∈ rest, 0 ≤ q.2 := fun q hq => hnn q (List.mem_cons_of_mem _ hq)
    have hc2 : round2 c ≤ round2 (c + du) := round2_mono (by linarith)
    obtain ⟨ihb, ihc⟩ := ih (c + du) hrest
    have hstep : buildChaptersAux ((seg, du) :: rest) c =
        (match seg.chapter with
         | some chm =>
           ⟨chm.title, round2 c, chm.sources⟩ :: buildChaptersAux rest (c + du)
         | none => buildChaptersAux rest (c + du)) := rfl
    rcases hch : seg.chapter with _ | chm
    · rw [hstep, hch]
      refine ⟨?_, ihc⟩
      intro ch hmem
      exact le_trans hc2 (ihb ch hmem)
    · rw [hstep, hch]
      constructor
      · intro ch hmem
        rcases List.mem_cons.mp hmem with rfl | hmem
        · exact le_refl _
        · exact le_trans hc2 (ihb ch hmem)
      · rw [List.chain'_cons']
        refine ⟨?_, ihc⟩
        intro y hy
        exact le_trans hc2 (ihb y (List.mem_of_mem_head? hy))

/-- C7: for equal-length segment and non-negative duration lists, chapter
start times are monotonically non-decreasing, a chapter entry is emitted
only for segments carrying a chapter descriptor, and each chapter's start
is the 2-decimal rounding of the cumulative duration of all preceding
segments. -/
theorem build_chapters_spec (segments : List Segment) (durations : List ℚ)
    (hlen : segments.length = durations.length)
    (hnn : ∀ d ∈ durations, 0 ≤ d) :
    List.Chain' (fun a b => a.start ≤ b.start)
      (_build_chapters segments durations)
    ∧ _build_chapters segments durations =
      (List.range segments.length).filterMap
        (fun i => (segments.get? i).bind (fun seg => seg.chapter.map
          (fun ch => ⟨ch.title, round2 ((durations.take i).sum), ch.sources⟩))) := by
  constructor
  · have hnn2 : ∀ p ∈ segments.zip durations, 0 ≤ p.2 := by
      intro p hp
      obtain ⟨a, b⟩ := p
      exact hnn b (List.of_mem_zip hp).2
    exact (buildChaptersAux_mono (segments.zip durations) 0 hnn2).2
  · have heq := buildChaptersAux_eq segments durations 0 hlen
    unfold _build_chapters
    rw [heq]
    apply List.filterMap_congr
    intro i _
    rcases hg : segments.get? i with _ | s
    · rfl
    · show s.chapter.map _ = s.chapter.map _
      rcases s.chapter with _ | ch
      · rfl
      · show some _ = some _
        rw [zero_add]

/-- C7 witness: an intro segment followed by two chaptered segments with
durations 1, 2, 3. -/
theorem build_chapters_spec_witness :
    List.Chain' (fun a b => a.start ≤ b.start)
      (_build_chapters [⟨"i", none⟩, ⟨"x", some ⟨"t", []⟩⟩, ⟨"y", some ⟨"u", []⟩⟩]
        [1, 2, 3]) ∧
    _build_chapters [⟨"i", none⟩, ⟨"x", some ⟨"t", []⟩⟩, ⟨"y", some ⟨"u", []⟩⟩]
        [1, 2, 3] =
      (List.range 3).filterMap
        (fun i => (([⟨"i", none⟩, ⟨"x", some ⟨"t", []⟩⟩, ⟨"y", some ⟨"u", []⟩⟩] :
            List Segment).get? i).bind (fun seg => seg.chapter.map
          (fun ch => ⟨ch.title, round2 ((([1, 2, 3] : List ℚ).take i).sum), ch.sources⟩))) := by
  exact build_chapters_spec _ _ (by decide) (by decide)

/-! ### C9: the fuzzy clustering pass -/

theorem addToMatching_join (ratio : String → String → ℚ) (threshold : ℚ)
    (n : String) (item : NewsItem) (cs : List FuzzyCluster) :
    (((addToMatching ratio threshold n item cs).map FuzzyCluster.items).flatten).Perm
      ((cs.map FuzzyCluster.items).flatten ++ [item]) := by
  induction cs with
  | nil => simp [addToMatching]
  | cons c rest ih =>
    unfold addToMatching
    split_ifs with h
    · show ((c.items ++ [item]) ++ (rest.map FuzzyCluster.items).flatten).Perm
        ((c.items ++ (rest.map FuzzyCluster.items).flatten) ++ [item])
      rw [List.append_assoc c.items [item], List.append_assoc c.items]
      exact List.Perm.append_left c.items List.perm_append_comm
    · show (c.items ++
          ((addToMatching ratio threshold n item rest).map FuzzyCluster.items).flatten).Perm
        ((c.items ++ (rest.map FuzzyCluster.items).flatten) ++ [item])
      rw [List.append_assoc c.items]
      exact List.Perm.append_left c.items ih

theorem cluster_fold_join (ratio : String → String → ℚ) (threshold : ℚ)
    (normalize : String → String) (its : List NewsItem) :
    ∀ acc : List FuzzyCluster,
    (((its.foldl (fuzzyStep ratio threshold normalize) acc).map
      FuzzyCluster.items).flatten).Perm ((acc.map FuzzyCluster.items).flatten ++ its) := by
  induction its with
  | nil => intro acc; simp
  | cons it rest ih =>
    intro acc
    show (((rest.foldl (fuzzyStep ratio threshold normalize)
        (fuzzyStep ratio threshold normalize acc it)).map FuzzyCluster.items).flatten).Perm _
    refine List.Perm.trans (ih (fuzzyStep ratio threshold normalize acc it)) ?_
    have hstep := addToMatching_join ratio threshold (normalize it.title) it acc
    refine List.Perm.trans (List.Perm.append_right rest hstep) ?_
    rw [List.append_assoc]
    exact List.Perm.refl _

theorem addToMatching_inv (ratio : String → String → ℚ) (threshold : ℚ)
    (normalize : String → String) (item : NewsItem) (cs : List FuzzyCluster)
    (h : ∀ c ∈ cs, ∃ x rest, c.items = x :: rest ∧ c.norm = normalize x.title) :
    ∀ c ∈ addToMatching ratio threshold (normalize item.title) item cs,
      ∃ x rest, c.items = x :: rest ∧ c.norm = normalize x.title := by
  induction cs with
  | nil =>
    intro c hc
    rcases List.mem_singleton.mp hc with rfl
    exact ⟨item, [], rfl, rfl⟩
  | cons c0 rest ih =>
    intro c hc
    unfold addToMatching at hc
    split_ifs at hc with hr
    · rcases List.mem_cons.mp hc with rfl | hmem
      · rcases h c0 (List.mem_cons_self _ _) with ⟨x, xs, hx, hn⟩
        exact ⟨x, xs ++ [item], by rw [hx]; rfl, hn⟩
      · exact h c (List.mem_cons_of_mem _ hmem)
    · rcases List.mem_cons.mp hc with rfl | hmem
      · exact h c (List.mem_cons_self _ _)
      · exact ih (fun q hq => h q (List.mem_cons_of_mem _ hq)) c hmem

theorem addToMatching_heads (ratio : String → String → ℚ) (threshold : ℚ)
    (n : String) (item : NewsItem) (cs : List FuzzyCluster)
    (h : ∀ c ∈ cs, c.items ≠ []) :
    (addToMatching ratio threshold n item cs).filterMap (fun c => c.items.head?) =
      cs.filterMap (fun c => c.items.head?) ∨
    (addToMatching ratio threshold n item cs).filterMap (fun c => c.items.head?) =
      cs.filterMap (fun c => c.items.head?) ++ [item] := by
  induction cs with
  | nil =>
    right
    rfl
  | cons c0 rest ih =>
    unfold addToMatching
    split_ifs with hr
    · left
      rcases List.exists_cons_of_ne_nil (h c0 (List.mem_cons_self _ _)) with ⟨x, xs, hx⟩
      show List.filterMap (fun c => c.items.head?) (⟨c0.items ++ [item], c0.norm⟩ :: rest) = _
      rw [List.filterMap_cons, List.filterMap_cons]
      have hh : (⟨c0.items ++ [item], c0.norm⟩ : FuzzyCluster).items.head? =
          c0.items.head? := by
        show (c0.items ++ [item]).head? = c0.items.head?
        rw [hx]
        rfl
      rw [hh]
    · rcases ih (fun q hq => h q (List.mem_cons_of_mem _ hq)) with heq | heq
      · left
        rw [List.filterMap_cons, List.filterMap_cons, heq]
      · right
        rw [List.filterMap_cons, List.filterMap_cons, heq]
        rcases hh : c0.items.head? with _ | x
        · rfl
        · rfl

theorem cluster_fold_inv (ratio : String → String → ℚ) (threshold : ℚ)
    (normalize : String → String) (its : List NewsItem) :
    ∀ (acc : List FuzzyCluster) (ys : List NewsItem),
    (∀ c ∈ acc, ∃ x rest, c.items = x :: rest ∧ c.norm = normalize x.title) →
    ((acc.filterMap (fun c => c.items.head?)).Sublist ys) →
    (∀ c ∈ its.foldl (fuzzyStep ratio threshold normalize) acc,
      ∃ x rest, c.items = x :: rest ∧ c.norm = normalize x.title) ∧
    (((its.foldl (fuzzyStep ratio threshold normalize) acc).filterMap
      (fun c => c.items.head?)).Sublist (ys ++ its)) := by
  induction its with
  | nil =>
    intro acc ys hq hs
    exact ⟨hq, by simpa using hs⟩
  | cons it rest ih =>
    intro acc ys hq hs
    have hq2 := addToMatching_inv ratio threshold normalize it acc hq
    have hne : ∀ c ∈ acc, c.items ≠ [] := by
      intro c hc
      rcases hq c hc with ⟨x, xs, hx, _⟩
      rw [hx]
      exact fun hnil => List.noConfusion hnil
    have hs2 : ((fuzzyStep ratio threshold normalize acc it).filterMap
        (fun c => c.items.head?)).Sublist (ys ++ [it]) := by
      rcases addToMatching_heads ratio threshold (normalize it.title) it acc hne with
        heq | heq
      · show ((addToMatching ratio threshold (normalize it.title) it acc).filterMap
          (fun c => c.items.head?)).Sublist (ys ++ [it])
        rw [heq]
        exact List.Sublist.trans hs (List.sublist_append_left ys [it])
      · show ((addToMatching ratio threshold (normalize it.title) it acc).filterMap
          (fun c => c.items.head?)).Sublist (ys ++ [it])
        rw [heq]
        exact List.Sublist.append hs (List.Sublist.refl [it])
    have := ih (fuzzyStep ratio threshold normalize acc it) (ys ++ [it]) hq2 hs2
    refine ⟨this.1, ?_⟩
    have harr : (ys ++ [it]) ++ rest = ys ++ (it :: rest) := by
      rw [List.append_assoc]
      rfl
    rw [← harr]
    exact this.2

/-- C9: the fuzzy pass appends each item to the first cluster whose stored
representative matches with ratio at least the threshold and otherwise
appends a fresh singleton cluster; consequently the clusters partition the
input items, each cluster's representative is the normalized title of its
first-seen item, and the cluster order is the input order of those
first-seen items. -/
theorem cluster_by_fuzzy_spec (items : List NewsItem)
    (ratio : String → String → ℚ) (threshold : ℚ)
    (normalize : String → String) :
    ((((_cluster_by_fuzzy items ratio threshold normalize).map
        FuzzyCluster.items).flatten).Perm items)
    ∧ (∀ c ∈ _cluster_by_fuzzy items ratio threshold normalize,
        ∃ x rest, c.items = x :: rest ∧ c.norm = normalize x.title)
    ∧ (((_cluster_by_fuzzy items ratio threshold normalize).filterMap
        (fun c => c.items.head?)).Sublist items)
    ∧ (∀ (clusters : List FuzzyCluster) (item : NewsItem),
        (∀ c ∈ clusters, ratio (normalize item.title) c.norm < threshold) →
        addToMatching ratio threshold (normalize item.title) item clusters =
          clusters ++ [⟨[item], normalize item.title⟩]) := by
  have hjoin := cluster_fold_join ratio threshold normalize items []
  have hinv := cluster_fold_inv ratio threshold normalize items [] []
    (by intro c hc; cases hc) (List.Sublist.refl [])
  refine ⟨by simpa using hjoin, hinv.1, by simpa using hinv.2, ?_⟩
  intro clusters item hlt
  induction clusters with
  | nil => rfl
  | cons c rest ih =>
    unfold addToMatching
    rw [if_neg (not_le.mpr (hlt c (List.mem_cons_self _ _)))]
    rw [ih (fun q hq => hlt q (List.mem_cons_of_mem _ hq))]
    rfl

/-- C9 witness: a single item forms a single singleton cluster, and with
no matching cluster a fresh cluster is appended. -/
theorem cluster_by_fuzzy_spec_witness :
    ((((_cluster_by_fuzzy [⟨"t1", "", "", [], 1, "", "", ""⟩]
        (fun _ _ => 0) 90 (fun s => s)).map FuzzyCluster.items).flatten).Perm
      [⟨"t1", "", "", [], 1, "", "", ""⟩]) ∧
    addToMatching (fun _ _ => 0) 90 "t1" ⟨"t1", "", "", [], 1, "", "", ""⟩ [] =
      [⟨[⟨"t1", "", "", [], 1, "", "", ""⟩], "t1"⟩] := by
  have h := cluster_by_fuzzy_spec [⟨"t1", "", "", [], 1, "", "", ""⟩]
    (fun _ _ => 0) 90 (fun s => s)
  refine ⟨h.1, ?_⟩
  have h4 := h.2.2.2 [] ⟨"t1", "", "", [], 1, "", "", ""⟩ (by intro c hc; cases hc)
  exact h4

/-! ### C3: the pipeline entry point -/

/-- C3 counterexample: `maybe_generate_audio` can raise to its caller.
The two `mkdir` calls, the cache check and the item flattening of lines
65-107 run before the `try` of line 114; an exception there (here: the
first `mkdir` failing) propagates out of the function uncaught. -/
theorem maybe_generate_audio_can_raise :
    (maybe_generate_audio String true (Except.error "mkdir failed")
      (Except.ok ()) (Except.ok false) "p.mp3" "c.json" "key" "" "endp"
      (Except.ok true) (Except.ok none)).1 = Except.error "mkdir failed" := by
  rfl

/-- An `Except` computation that did not raise. -/
def exceptOk {ε α : Type} (x : Except ε α) : Prop := ∃ a, x = Except.ok a

/-- C3 (amended): once the pre-session setup (directory creation, the
cache check, report flattening) completes without raising, the function
never raises: every exception inside the pipeline body is caught by the
outermost handler and turned into a logged `none` return; and whenever the
network session is opened it is closed by the cleanup block, whatever the
body does. -/
theorem maybe_generate_audio_no_raise (ε : Type) (enabled : Bool)
    (mkdirOutput mkdirPublic : Except ε Unit) (cacheCheck : Except ε Bool)
    (pa pc gk pv te : String) (flattenNonEmpty : Except ε Bool)
    (body : Except ε (Option AudioResult)) :
    ((exceptOk mkdirOutput → exceptOk mkdirPublic → exceptOk cacheCheck →
      exceptOk flattenNonEmpty →
      ∃ r, (maybe_generate_audio ε enabled mkdirOutput mkdirPublic cacheCheck
        pa pc gk pv te flattenNonEmpty body).1 = Except.ok r)
    ∧ ((maybe_generate_audio ε enabled mkdirOutput mkdirPublic cacheCheck
        pa pc gk pv te flattenNonEmpty body).2.1 = true →
       (maybe_generate_audio ε enabled mkdirOutput mkdirPublic cacheCheck
        pa pc gk pv te flattenNonEmpty body).2.2 = true)) := by
  constructor
  · rintro ⟨u1, h1⟩ ⟨u2, h2⟩ ⟨b1, h3⟩ ⟨b2, h4⟩
    subst h1 h2 h3 h4
    unfold maybe_generate_audio
    rcases enabled with _ | _
    · exact ⟨none, rfl⟩
    · rcases b1 with _ | _
      · simp only [Bool.not_true, if_neg (by simp : ¬((false : Bool) = true))]
        split_ifs
        · exact ⟨none, rfl⟩
        · exact ⟨none, rfl⟩
        · rcases b2 with _ | _
          · exact ⟨none, rfl⟩
          · rcases body with e | r
            · exact ⟨none, rfl⟩
            · exact ⟨r, rfl⟩
      · exact ⟨some ⟨some pa, some pc, false⟩, rfl⟩
  · unfold maybe_generate_audio
    rcases enabled with _ | _
    · intro h; exact h
    · rcases mkdirOutput with e | u
      · intro h; exact h
      · rcases mkdirPublic with e | u2
        · intro h; exact h
        · rcases cacheCheck with e | b1
          · intro h; exact h
          · rcases b1 with _ | _
            · simp only [Bool.not_true, if_neg (by simp : ¬((false : Bool) = true))]
              split_ifs
              · intro h; exact h
              · intro h; exact h
              · rcases flattenNonEmpty with e | b2
                · intro h; exact h
                · rcases b2 with _ | _
                  · intro h; exact h
                  · rcases body with e | r
                    · intro _; rfl
                    · intro _; rfl
            · intro h; exact h

/-- C3 witness: with all pre-session steps succeeding and a raising body,
the function returns `none` without raising, and the opened session is
closed. -/
theorem maybe_generate_audio_no_raise_witness :
    (∃ r, (maybe_generate_audio String true (Except.ok ()) (Except.ok ())
      (Except.ok false) "p.mp3" "c.json" "key" "" "endp" (Except.ok true)
      (Except.error "boom")).1 = Except.ok r) ∧
    (maybe_generate_audio String true (Except.ok ()) (Except.ok ())
      (Except.ok false) "p.mp3" "c.json" "key" "" "endp" (Except.ok true)
      (Except.error "boom")).2.2 = true := by
  have h := maybe_generate_audio_no_raise String true (Except.ok ()) (Except.ok ())
    (Except.ok false) "p.mp3" "c.json" "key" "" "endp" (Except.ok true)
    (Except.error "boom")
  refine ⟨h.1 ⟨(), rfl⟩ ⟨(), rfl⟩ ⟨false, rfl⟩ ⟨true, rfl⟩, h.2 (by rfl)⟩
